import Mathlib

/-!
Verification development for the ANS table-extraction pipeline
(`processador_anss.py`, class `ANSProcessor`).

The pipeline cells are dynamically typed Python values; a cell coming out of
the PDF table extraction is either a text value, a numeric value, or the
missing-value marker `NaN`.  We embed them as `PyVal`.  A pandas `DataFrame`
is embedded as `Frame`: an ordered list of column labels (themselves cell
values, since headers are taken from data rows) plus a list of rows.
-/

/-- Dynamic cell value: a Python string, a numeric value, or the
missing-value marker (`NaN` / `None` / `NaT`, all treated as NA). -/
inductive PyVal : Type where
  | str (s : String)
  | num (n : Int)
  | nan
deriving DecidableEq, Repr

/-- True exactly on string values: the `isinstance(text, str)` test of
`normalize_text`. -/
def isStrVal : PyVal → Bool
  | .str _ => true
  | _ => false

/-- Python `str()` as used by `Series.astype(str)`: `NaN` stringifies to
`"nan"`; numbers print their decimal form. -/
def pyStr : PyVal → String
  | .str s => s
  | .num n => toString n
  | .nan => "nan"

/-- Characters matched by Python's `re` class `\s` (and by `str.strip`)
within the ASCII range: space, tab, newline, vertical tab, form feed,
carriage return, and the file/group/record/unit separators. -/
def pyIsSpace (c : Char) : Bool :=
  c == ' ' || c == '\t' || c == '\n' || c == '\r' || c == '\x0b' ||
  c == '\x0c' || c == '\x1c' || c == '\x1d' || c == '\x1e' || c == '\x1f'

/-- Characters matched by Python's `\w` within the ASCII range:
alphanumerics and the underscore. -/
def isWordChar (c : Char) : Bool :=
  c.isAlphanum || c == '_'

/-- Characters kept by the substitution `re.sub(r'[^\w\s,.;-]', '', text)`
(the input is pure ASCII at that point, see `normalize_text_str`). -/
def keepChar (c : Char) : Bool :=
  isWordChar c || pyIsSpace c || c == ',' || c == '.' || c == ';' || c == '-'

/-- NFKD decomposition of a single character, as performed by
`unicodedata.normalize('NFKD', text)`.  ASCII characters are NFKD-stable.
The decomposition table is restricted to the accented Latin letters that
occur in this repository's data (Portuguese text); any other non-ASCII
character is left undecomposed, and is therefore dropped whole by the
subsequent `encode('ASCII', 'ignore')` step, exactly as a character with
no decomposition is. -/
def nfkdDecompose (c : Char) : List Char :=
  if c.toNat < 128 then [c]
  else
    match c with
    | 'á' => ['a', '́']
    | 'à' => ['a', '̀']
    | 'â' => ['a', '̂']
    | 'ã' => ['a', '̃']
    | 'é' => ['e', '́']
    | 'ê' => ['e', '̂']
    | 'í' => ['i', '́']
    | 'ó' => ['o', '́']
    | 'ô' => ['o', '̂']
    | 'õ' => ['o', '̃']
    | 'ú' => ['u', '́']
    | 'ü' => ['u', '̈']
    | 'ç' => ['c', '̧']
    | 'Á' => ['A', '́']
    | 'À' => ['A', '̀']
    | 'Â' => ['A', '̂']
    | 'Ã' => ['A', '̃']
    | 'É' => ['E', '́']
    | 'Ê' => ['E', '̂']
    | 'Í' => ['I', '́']
    | 'Ó' => ['O', '́']
    | 'Ô' => ['O', '̂']
    | 'Õ' => ['O', '̃']
    | 'Ú' => ['U', '́']
    | 'Ü' => ['U', '̈']
    | 'Ç' => ['C', '̧']
    | _ => [c]

/-- Run-collapsing substitution `re.sub(r'\s+', ' ', text)`: every maximal
run of whitespace characters is replaced by a single space.  The boolean
records whether the previous character belonged to a whitespace run. -/
def collapseAux : Bool → List Char → List Char
  | _, [] => []
  | prevSp, c :: rest =>
    if pyIsSpace c then
      (if prevSp then [] else [' ']) ++ collapseAux true rest
    else
      c :: collapseAux false rest

/-- Python `str.strip()`: remove leading and trailing whitespace. -/
def pyStrip (l : List Char) : List Char :=
  ((l.dropWhile pyIsSpace).reverse.dropWhile pyIsSpace).reverse

/-- The body of `ANSProcessor.normalize_text` on a string argument:
NFKD-decompose and drop non-ASCII remnants, delete characters outside
`[\w\s,.;-]`, collapse whitespace runs to single spaces and strip, then
replace the (by now absent) literal newline and carriage-return characters
by spaces. -/
def normalize_text_str (s : String) : String :=
  let decomposed := (s.data.map nfkdDecompose).flatten
  let asciiOnly := decomposed.filter (fun c => decide (c.toNat < 128))
  let kept := asciiOnly.filter keepChar
  let collapsed := pyStrip (collapseAux false kept)
  let noNl := collapsed.map (fun c => if c = '\n' then ' ' else c)
  let noCr := noNl.map (fun c => if c = '\r' then ' ' else c)
  String.mk noCr

/-- `ANSProcessor.normalize_text`: non-string values are returned unchanged
(the `isinstance(text, str)` guard); strings go through the normalization
pipeline. -/
def normalize_text (v : PyVal) : PyVal :=
  match v with
  | .str s => .str (normalize_text_str s)
  | v => v

/-- `self.expected_columns` from `ANSProcessor.__init__`. -/
def expected_columns : List String :=
  ["PROCEDIMENTO", "RN_alteracao", "VIGENCIA", "OD", "AMB",
   "HCO", "HSO", "REF", "PAC", "DUT", "SUBGRUPO",
   "GRUPO", "CAPITULO"]

/-- `self.abbreviations` from `ANSProcessor.__init__`.  This mapping is
defined by the constructor but is never consulted anywhere else in the
module. -/
def abbreviations : List (String × String) :=
  [("OD", "Seg. Odontológica"), ("AMB", "Seg. Ambulatorial")]

/-- The 13-entry schema as the specification document states it (with the
expanded labels in the fourth and fifth positions).  Kept separate from
`expected_columns`, which is the constant the code actually holds, so the
two can be compared. -/
def spec_expected_schema : List String :=
  ["PROCEDIMENTO", "RN_alteracao", "VIGENCIA", "Seg. Odontológica",
   "Seg. Ambulatorial", "HCO", "HSO", "REF", "PAC", "DUT", "SUBGRUPO",
   "GRUPO", "CAPITULO"]

/-- A pandas `DataFrame`: ordered column labels (cell values, since headers
are taken from data rows during extraction) and data rows. -/
structure Frame : Type where
  cols : List PyVal
  rows : List (List PyVal)
deriving DecidableEq, Repr

/-- One raw tabular chunk as returned by `tabula.read_pdf` with
`header=None`: a grid of cells with `ncols` integer-labelled columns. -/
structure RawChunk : Type where
  ncols : Nat
  rows : List (List PyVal)
deriving DecidableEq, Repr

/-- The error kinds raised by the pipeline (`raise` sites in the module).
`schemaError` carries the actual and the expected column counts that the
`ValueError` message at the end of `extract_tables_from_pdf` reports. -/
inductive PipeError : Type where
  | urlNotFound
  | indexError
  | noValidTables
  | schemaError (got expected : Nat)
deriving DecidableEq, Repr

/-- The message text attached to each raised error. -/
def errorMessage : PipeError → String
  | .urlNotFound => "URL do Anexo I não encontrada"
  | .indexError => "single positional indexer is out-of-bounds"
  | .noValidTables => "Nenhuma tabela válida encontrada no PDF"
  | .schemaError got expected =>
      "O número de colunas extraídas (" ++ toString got ++
      ") é menor que o esperado (" ++ toString expected ++ ")"

/-- Python substring test `pat in s`. -/
def strContains (s pat : String) : Bool :=
  s.data.tails.any (fun t => pat.data.isPrefixOf t)

/-- Python `s.endswith(pat)`. -/
def strEndsWith (s pat : String) : Bool :=
  pat.data.isSuffixOf s.data

/-- Python `s.lower()` (ASCII case folding; the link targets tested by the
locator are ASCII). -/
def pyLowerStr (s : String) : String :=
  String.mk (s.data.map Char.toLower)

/-- The acceptance test of the loop in `find_anexo_i_url`: the target
contains `'Anexo_I'` and its lowercased form ends in `.pdf` or `.xlsx`. -/
def qualifiesLink (href : String) : Bool :=
  strContains href "Anexo_I" &&
    (strEndsWith (pyLowerStr href) ".pdf" || strEndsWith (pyLowerStr href) ".xlsx")

/-- Relative-to-absolute rewriting of the returned link: targets not
starting with `'http'` are prefixed with the fixed host. -/
def absolutize (href : String) : String :=
  if "http".data.isPrefixOf href.data then href else "https://www.gov.br" ++ href

/-- `ANSProcessor.find_anexo_i_url`, over the sequence of `href` targets the
landing page presents in document order: return the first qualifying link,
absolutized; raise when none qualifies. -/
def find_anexo_i_url : List String → Except PipeError String
  | [] => .error .urlNotFound
  | h :: rest =>
    if qualifiesLink h then .ok (absolutize h) else find_anexo_i_url rest

/-- `table.dropna(axis=1, how='all')`: keep exactly the columns that hold at
least one non-missing cell. -/
def dropEmptyCols (ncols : Nat) (rows : List (List PyVal)) : List (List PyVal) :=
  let keepIdx := (List.range ncols).filter
    (fun j => rows.any (fun r => !(r.getD j .nan == .nan)))
  rows.map (fun r => keepIdx.map (fun j => r.getD j .nan))

/-- The per-chunk processing of the loop in `extract_tables_from_pdf`:
chunks with three or fewer columns are skipped (`none`); otherwise the
fully empty columns are removed, the first remaining row becomes the
chunk's header and the rest its data.  `table.iloc[0]` on a chunk with no
rows raises an `IndexError`. -/
def processChunk (t : RawChunk) : Option (Except PipeError Frame) :=
  if 3 < t.ncols then
    some (match dropEmptyCols t.ncols t.rows with
      | [] => .error .indexError
      | header :: dataRows => .ok ⟨header, dataRows⟩)
  else
    none

/-- The whole extraction loop: process each chunk in order, propagating the
first raised error, and collect the surviving frames. -/
def processChunks : List RawChunk → Except PipeError (List Frame)
  | [] => .ok []
  | t :: ts =>
    match processChunk t with
    | none => processChunks ts
    | some (.error e) => .error e
    | some (.ok f) => (processChunks ts).map (f :: ·)

/-- Column union of `pd.concat`: labels in order of first appearance.
(Labels are compared by value; pandas' `NaN`-label corner cases are
identified with value equality here.) -/
def unionCols (frames : List Frame) : List PyVal :=
  frames.foldl (fun acc f =>
    f.cols.foldl (fun acc c => if acc.contains c then acc else acc ++ [c]) acc) []

/-- Reindexing one row of a frame against the concatenated label list: a
label absent from the frame yields `NaN`. -/
def lookupCell (cols : List PyVal) (row : List PyVal) (c : PyVal) : PyVal :=
  match cols.findIdx? (fun x => x == c) with
  | some j => row.getD j .nan
  | none => .nan

/-- `pd.concat(processed_tables, ignore_index=True)`: the columns are the
union of the frames' labels in order of first appearance, and each row is
reindexed against that union. -/
def concatFrames (frames : List Frame) : Frame :=
  let u := unionCols frames
  ⟨u, frames.foldr
      (fun f acc => f.rows.map (fun r => u.map (lookupCell f.cols r)) ++ acc) []⟩

/-- `ANSProcessor.extract_tables_from_pdf`, taken from the point where the
external detection engine has returned its raw chunks: filter and process
the chunks, fail when none survives, concatenate, and fail with the
schema error when the concatenated table has fewer columns than the
expected thirteen. -/
def extract_tables (tables : List RawChunk) : Except PipeError Frame :=
  match processChunks tables with
  | .error e => .error e
  | .ok frames =>
    if frames.isEmpty then .error .noValidTables
    else if (concatFrames frames).cols.length < expected_columns.length then
      .error (.schemaError (concatFrames frames).cols.length expected_columns.length)
    else .ok (concatFrames frames)

/-- `df[col].replace({'nan': '', 'None': '', 'NaT': ''})` on one cell:
exact-match replacement of the three stringified missing-value forms. -/
def strReplaceMap (s : String) : String :=
  if s == "nan" || s == "None" || s == "NaT" then "" else s

/-- The object-column cleaning body of `clean_dataframe`:
`astype(str)`, then `apply(self.normalize_text)`, then the literal
missing-form replacement. -/
def cleanCellObj (c : PyVal) : PyVal :=
  .str (strReplaceMap (normalize_text_str (pyStr c)))

/-- `df.fillna('')` on one cell. -/
def fillnaCell (c : PyVal) : PyVal :=
  if c == .nan then .str "" else c

/-- Whether column `j` has pandas dtype `object` (text): true exactly when
the column holds at least one string cell.  Columns produced by the text
extraction hold strings and `NaN`s; an all-`NaN` column is numeric
(`float64`) and is skipped by `select_dtypes(include=['object'])`. -/
def isObjectCol (rows : List (List PyVal)) (j : Nat) : Bool :=
  rows.any (fun r => isStrVal (r.getD j .nan))

/-- The cell-level tail of `clean_dataframe`: the per-object-column
normalization loop followed by `fillna('')`, applied positionally to every
row. -/
def cleanCells (rows : List (List PyVal)) : List (List PyVal) :=
  rows.map (fun r =>
    (r.mapIdx (fun j c => if isObjectCol rows j then cleanCellObj c else c)).map
      fillnaCell)

/-- The row-keeping test of `df.dropna(how='all')`: a row survives unless
every cell is the missing-value marker. -/
def notAllNan (r : List PyVal) : Bool :=
  !(r.all (· == PyVal.nan))

/-- `ANSProcessor.clean_dataframe`: drop fully missing rows, normalize the
header strings, truncate to the first thirteen columns when there are
more, positionally rename the columns to `expected_columns`, normalize the
object-column cells, replace the stringified missing forms, and fill the
remaining missing values with the empty string. -/
def clean_dataframe (df : Frame) : Frame :=
  let rows1 := df.rows.filter notAllNan
  let cols1 := df.cols.map normalize_text
  let tooWide := expected_columns.length < cols1.length
  let cols2 := if tooWide then cols1.take expected_columns.length else cols1
  let rows2 := if tooWide then rows1.map (List.take expected_columns.length) else rows1
  let cols3 := (expected_columns.take cols2.length).map PyVal.str
  ⟨cols3, cleanCells rows2⟩

/-- The extract-then-clean composition of `ANSProcessor.process` (steps 2
and 3): an error raised during extraction propagates and `clean_dataframe`
is never applied. -/
def pipeline (tables : List RawChunk) : Except PipeError Frame :=
  (extract_tables tables).map clean_dataframe

/-- The character list reached inside `normalize_text_str` after the NFKD
decomposition, the ASCII filter and the character-class filter. -/
def keptChars (s : String) : List Char :=
  ((s.data.map nfkdDecompose).flatten.filter
    (fun c => decide (c.toNat < 128))).filter keepChar

/-- Invariant satisfied by the output of `normalize_text_str`: ASCII-only
characters of the kept class whose only whitespace form is the single
space, no two adjacent whitespace characters, and no leading or trailing
whitespace. -/
def goodOut (l : List Char) : Prop :=
  (∀ c ∈ l, c.toNat < 128 ∧ keepChar c = true ∧ (pyIsSpace c = true → c = ' ')) ∧
  List.Chain' (fun a c => ¬(pyIsSpace a = true ∧ pyIsSpace c = true)) l ∧
  (∀ x, l.head? = some x → pyIsSpace x = false) ∧
  (∀ x, l.getLast? = some x → pyIsSpace x = false)

/-- Example fixture: a raw 10-column chunk (header row plus one data
row, no missing cells). -/
def exChunk10 : RawChunk :=
  ⟨10, [["c0", "c1", "c2", "c3", "c4", "c5", "c6", "c7", "c8", "c9"].map PyVal.str,
        ["v0", "v1", "v2", "v3", "v4", "v5", "v6", "v7", "v8", "v9"].map PyVal.str]⟩

/-- The frame the extraction loop produces from `exChunk10`. -/
def exFrame10 : Frame :=
  ⟨["c0", "c1", "c2", "c3", "c4", "c5", "c6", "c7", "c8", "c9"].map PyVal.str,
   [["v0", "v1", "v2", "v3", "v4", "v5", "v6", "v7", "v8", "v9"].map PyVal.str]⟩

/-- Example fixture: a raw 13-column chunk (header row plus one data
row, no missing cells). -/
def exChunk13 : RawChunk :=
  ⟨13, [["c0", "c1", "c2", "c3", "c4", "c5", "c6", "c7", "c8", "c9", "c10",
         "c11", "c12"].map PyVal.str,
        ["v0", "v1", "v2", "v3", "v4", "v5", "v6", "v7", "v8", "v9", "v10",
         "v11", "v12"].map PyVal.str]⟩

/-- The frame the extraction loop produces from `exChunk13`. -/
def exFrame13 : Frame :=
  ⟨["c0", "c1", "c2", "c3", "c4", "c5", "c6", "c7", "c8", "c9", "c10",
    "c11", "c12"].map PyVal.str,
   [["v0", "v1", "v2", "v3", "v4", "v5", "v6", "v7", "v8", "v9", "v10",
     "v11", "v12"].map PyVal.str]⟩

/-- Example fixture: a unified 13-column table whose fourth column (the
`OD` position of the schema) holds the abbreviation code `"OD"` in the
first data row and `"od "` (trailing space) in the second. -/
def dfOD : Frame :=
  ⟨expected_columns.map PyVal.str,
   [["p1", "10", "2021", "OD", "AMB", "h1", "h2", "r1", "pa", "d1", "s1",
     "g1", "cap"].map PyVal.str,
    ["p2", "11", "2021", "od ", "AMB", "h1", "h2", "r1", "pa", "d1", "s1",
     "g1", "cap"].map PyVal.str]⟩

/-- Example fixture: a unified table with exactly 13 columns. -/
def df13ex : Frame :=
  ⟨["h0", "h1", "h2", "h3", "h4", "h5", "h6", "h7", "h8", "h9", "h10",
    "h11", "h12"].map PyVal.str,
   [["a0", "a1", "a2", "a3", "a4", "a5", "a6", "a7", "a8", "a9", "a10",
     "a11", "a12"].map PyVal.str]⟩

/-- Example fixture: a unified table with 15 columns. -/
def df15ex : Frame :=
  ⟨["h0", "h1", "h2", "h3", "h4", "h5", "h6", "h7", "h8", "h9", "h10",
    "h11", "h12", "h13", "h14"].map PyVal.str,
   [["a0", "a1", "a2", "a3", "a4", "a5", "a6", "a7", "a8", "a9", "a10",
     "a11", "a12", "a13", "a14"].map PyVal.str]⟩

/-!
Helper lemmas about the whitespace-collapsing and stripping steps of
`normalize_text_str`.
-/

/-- Every character of the collapsed list is either the inserted single
space or a non-whitespace character of the input. -/
theorem mem_collapseAux (b : Bool) (l : List Char) (c : Char)
    (h : c ∈ collapseAux b l) : c = ' ' ∨ (c ∈ l ∧ pyIsSpace c = false) := by
  induction l generalizing b with
  | nil => simp [collapseAux] at h
  | cons d rest ih =>
    by_cases hd : pyIsSpace d = true
    · rw [collapseAux, if_pos hd] at h
      rcases List.mem_append.mp h with h1 | h2
      · cases b with
        | true => simp at h1
        | false =>
          simp at h1
          exact Or.inl h1
      · rcases ih true h2 with h3 | ⟨hm, hs⟩
        · exact Or.inl h3
        · exact Or.inr ⟨List.mem_cons_of_mem _ hm, hs⟩
    · rw [collapseAux, if_neg hd] at h
      rcases List.mem_cons.mp h with h1 | h2
      · subst h1
        exact Or.inr ⟨List.mem_cons_self _ _, Bool.eq_false_iff.mpr hd⟩
      · rcases ih false h2 with h3 | ⟨hm, hs⟩
        · exact Or.inl h3
        · exact Or.inr ⟨List.mem_cons_of_mem _ hm, hs⟩

/-- After a whitespace run was just emitted, the collapsed list continues
with a non-whitespace character. -/
theorem head_collapseAux_true (l : List Char) (x : Char)
    (h : (collapseAux true l).head? = some x) : pyIsSpace x = false := by
  induction l with
  | nil => simp [collapseAux] at h
  | cons d rest ih =>
    by_cases hd : pyIsSpace d = true
    · rw [collapseAux, if_pos hd] at h
      simpa using ih (by simpa using h)
    · rw [collapseAux, if_neg hd] at h
      simp only [List.head?_cons, Option.some.injEq] at h
      subst h
      exact Bool.eq_false_iff.mpr hd

/-- The collapsed list never holds two adjacent whitespace characters. -/
theorem chain_collapseAux (l : List Char) (b : Bool) :
    List.Chain' (fun a c => ¬(pyIsSpace a = true ∧ pyIsSpace c = true))
      (collapseAux b l) := by
  induction l generalizing b with
  | nil => simp [collapseAux]
  | cons d rest ih =>
    by_cases hd : pyIsSpace d = true
    · rw [collapseAux, if_pos hd]
      cases b with
      | true => simpa using ih true
      | false =>
        have hrw : (if false then ([] : List Char) else [' ']) ++ collapseAux true rest
            = ' ' :: collapseAux true rest := rfl
        rw [hrw, List.chain'_cons']
        refine ⟨fun y hy hcon => ?_, ih true⟩
        have := head_collapseAux_true rest y hy
        rw [this] at hcon
        exact absurd hcon.2 (by simp)
    · rw [collapseAux, if_neg hd]
      rw [List.chain'_cons']
      refine ⟨fun y _ hcon => ?_, ih false⟩
      exact hd hcon.1

/-- On a list whose only whitespace character is the single space and which
has no two adjacent whitespace characters, collapsing is the identity. -/
theorem collapseAux_fixed (l : List Char)
    (hsp : ∀ c ∈ l, pyIsSpace c = true → c = ' ')
    (hch : List.Chain' (fun a c => ¬(pyIsSpace a = true ∧ pyIsSpace c = true)) l) :
    collapseAux false l = l ∧
      ((∀ x, l.head? = some x → pyIsSpace x = false) → collapseAux true l = l) := by
  induction l with
  | nil => exact ⟨rfl, fun _ => rfl⟩
  | cons d rest ih =>
    have hsp' : ∀ c ∈ rest, pyIsSpace c = true → c = ' ' :=
      fun c hc => hsp c (List.mem_cons_of_mem _ hc)
    have hch' : List.Chain' _ rest := (List.chain'_cons'.mp hch).2
    have hrel := (List.chain'_cons'.mp hch).1
    rcases ih hsp' hch' with ⟨ihf, iht⟩
    constructor
    · by_cases hd : pyIsSpace d = true
      · have hd' : d = ' ' := hsp d (List.mem_cons_self _ _) hd
        rw [collapseAux, if_pos hd]
        have hhead : ∀ x, rest.head? = some x → pyIsSpace x = false := by
          intro x hx
          have := hrel x hx
          rw [hd] at this
          by_contra hxx
          exact this ⟨rfl, by simpa using hxx⟩
        rw [iht hhead]
        simp [hd']
      · rw [collapseAux, if_neg hd, ihf]
    · intro hhead
      have hd : pyIsSpace d = false := hhead d rfl
      rw [collapseAux, if_neg (by simp [hd]), ihf]

/-- If `dropWhile` leaves a nonempty list, its head fails the predicate. -/
theorem dropWhile_head_false (p : Char → Bool) (l : List Char) (x : Char)
    (h : (l.dropWhile p).head? = some x) : p x = false := by
  have hne : l.dropWhile p ≠ [] := by
    intro hnil
    rw [hnil] at h
    simp at h
  have h2 := List.head_dropWhile_not p l hne
  have h3 : (l.dropWhile p).head hne = x := by
    rw [List.head?_eq_head hne] at h
    exact Option.some.inj h
  rwa [h3] at h2

/-- `dropWhile` is the identity when the head (if any) fails the
predicate. -/
theorem dropWhile_eq_self_of_head (p : Char → Bool) (l : List Char)
    (h : ∀ x, l.head? = some x → p x = false) : l.dropWhile p = l := by
  cases l with
  | nil => rfl
  | cons d rest =>
    have := h d rfl
    simp [List.dropWhile, this]

/-- Stripping only removes characters. -/
theorem mem_pyStrip (l : List Char) (c : Char) (h : c ∈ pyStrip l) : c ∈ l := by
  unfold pyStrip at h
  rw [List.mem_reverse] at h
  have h1 := (List.dropWhile_suffix (l := (l.dropWhile pyIsSpace).reverse) pyIsSpace).sublist.mem h
  rw [List.mem_reverse] at h1
  exact (List.dropWhile_suffix pyIsSpace).sublist.mem h1

/-- A chain condition survives a suffix. -/
theorem chain_of_suffix {R : Char → Char → Prop} {l₁ l₂ : List Char}
    (h : List.Chain' R l₂) (hs : l₁ <:+ l₂) : List.Chain' R l₁ := by
  rcases hs with ⟨pre, rfl⟩
  exact (List.chain'_append.mp h).2.1

/-- Stripping preserves the no-two-adjacent-whitespace chain. -/
theorem chain_pyStrip (l : List Char)
    (h : List.Chain' (fun a c => ¬(pyIsSpace a = true ∧ pyIsSpace c = true)) l) :
    List.Chain' (fun a c => ¬(pyIsSpace a = true ∧ pyIsSpace c = true))
      (pyStrip l) := by
  unfold pyStrip
  have h1 := chain_of_suffix h (List.dropWhile_suffix pyIsSpace)
  rw [List.chain'_reverse]
  apply chain_of_suffix _ (List.dropWhile_suffix pyIsSpace)
  rw [List.chain'_reverse]
  exact h1.imp (fun a c hac hcon => hac ⟨hcon.1, hcon.2⟩)

/-- The stripped list does not start with whitespace. -/
theorem head_pyStrip (l : List Char) (x : Char)
    (h : (pyStrip l).head? = some x) : pyIsSpace x = false := by
  unfold pyStrip at h
  rw [List.head?_reverse] at h
  rcases List.dropWhile_suffix (l := (l.dropWhile pyIsSpace).reverse) pyIsSpace with ⟨pre, hpre⟩
  have hne : (l.dropWhile pyIsSpace).reverse.dropWhile pyIsSpace ≠ [] := by
    intro hnil
    rw [hnil] at h
    simp at h
  have h2 : ((l.dropWhile pyIsSpace).reverse).getLast? = some x := by
    rw [← hpre, List.getLast?_append_of_ne_nil _ hne]
    exact h
  rw [List.getLast?_reverse] at h2
  exact dropWhile_head_false pyIsSpace l x h2

/-- The stripped list does not end with whitespace. -/
theorem last_pyStrip (l : List Char) (x : Char)
    (h : (pyStrip l).getLast? = some x) : pyIsSpace x = false := by
  unfold pyStrip at h
  rw [List.getLast?_reverse] at h
  exact dropWhile_head_false pyIsSpace (l.dropWhile pyIsSpace).reverse x h

/-- Stripping is the identity on a list with no leading and no trailing
whitespace. -/
theorem pyStrip_fixed (l : List Char)
    (hh : ∀ x, l.head? = some x → pyIsSpace x = false)
    (hl : ∀ x, l.getLast? = some x → pyIsSpace x = false) :
    pyStrip l = l := by
  unfold pyStrip
  rw [dropWhile_eq_self_of_head pyIsSpace l hh]
  rw [dropWhile_eq_self_of_head pyIsSpace l.reverse
    (fun x hx => hl x (by rwa [List.head?_reverse] at hx))]
  exact List.reverse_reverse l

/-- Characters surviving the two filters are ASCII and of the kept class. -/
theorem mem_keptChars (s : String) (c : Char) (h : c ∈ keptChars s) :
    c.toNat < 128 ∧ keepChar c = true := by
  unfold keptChars at h
  rcases List.mem_filter.mp h with ⟨h1, h2⟩
  rcases List.mem_filter.mp h1 with ⟨_, h3⟩
  exact ⟨of_decide_eq_true h3, h2⟩

/-- The collapse-and-strip stage establishes the output invariant. -/
theorem goodOut_strip_collapse (l : List Char)
    (hk : ∀ c ∈ l, c.toNat < 128 ∧ keepChar c = true) :
    goodOut (pyStrip (collapseAux false l)) := by
  refine ⟨?_, ?_, ?_, ?_⟩
  · intro c hc
    have hc1 := mem_pyStrip _ c hc
    rcases mem_collapseAux false l c hc1 with h1 | ⟨h2, h3⟩
    · subst h1
      exact ⟨by decide, by decide, fun _ => rfl⟩
    · rcases hk c h2 with ⟨ha, hb⟩
      exact ⟨ha, hb, fun hsp => absurd hsp (by simp [h3])⟩
  · exact chain_pyStrip _ (chain_collapseAux l false)
  · exact head_pyStrip _
  · exact last_pyStrip _

/-- Mapping a single-character replacement over a list that avoids the
replaced character is the identity. -/
theorem map_replace_id (a : Char) (l : List Char) (h : a ∉ l) :
    l.map (fun c => if c = a then ' ' else c) = l := by
  have heq : ∀ c ∈ l, (fun c => if c = a then ' ' else c) c = id c := by
    intro c hc
    have hca : c ≠ a := fun hca => h (hca ▸ hc)
    simp [hca]
  rw [List.map_congr_left heq, List.map_id]

/-- The final newline and carriage-return replacements of
`normalize_text_str` are vacuous: the output is exactly the stripped
collapse of the kept characters. -/
theorem nts_data (s : String) :
    (normalize_text_str s).data = pyStrip (collapseAux false (keptChars s)) := by
  have hgood := goodOut_strip_collapse (keptChars s) (mem_keptChars s)
  have hnl : '\n' ∉ pyStrip (collapseAux false (keptChars s)) := by
    intro hmem
    have := (hgood.1 '\n' hmem).2.2 (by decide)
    exact absurd this (by decide)
  have hcr : '\r' ∉ pyStrip (collapseAux false (keptChars s)) := by
    intro hmem
    have := (hgood.1 '\r' hmem).2.2 (by decide)
    exact absurd this (by decide)
  show (((pyStrip (collapseAux false (keptChars s))).map
      (fun c => if c = '\n' then ' ' else c)).map
      (fun c => if c = '\r' then ' ' else c)) =
    pyStrip (collapseAux false (keptChars s))
  rw [map_replace_id '\n' _ hnl, map_replace_id '\r' _ hcr]

/-- The output of `normalize_text_str` satisfies the invariant. -/
theorem nts_good (s : String) : goodOut (normalize_text_str s).data := by
  rw [nts_data]
  exact goodOut_strip_collapse (keptChars s) (mem_keptChars s)

/-- Flattening singleton lists recovers the original list. -/
theorem flatten_map_singleton (l : List Char) :
    (l.map (fun c => [c])).flatten = l := by
  induction l with
  | nil => rfl
  | cons d rest ih => simp [ih]

/-- `normalize_text_str` is the identity on any character list that
satisfies the output invariant. -/
theorem nts_fixed (l : List Char) (h : goodOut l) :
    normalize_text_str (String.mk l) = String.mk l := by
  rcases h with ⟨hmem, hch, hh, hl⟩
  have hnl : '\n' ∉ l := by
    intro hmem'
    have := (hmem '\n' hmem').2.2 (by decide)
    exact absurd this (by decide)
  have hcr : '\r' ∉ l := by
    intro hmem'
    have := (hmem '\r' hmem').2.2 (by decide)
    exact absurd this (by decide)
  have hdec : (String.mk l).data.map nfkdDecompose = l.map (fun c => [c]) := by
    apply List.map_congr_left
    intro c hc
    have := (hmem c hc).1
    simp [nfkdDecompose, this]
  have hascii : (l.filter (fun c => decide (c.toNat < 128))) = l :=
    List.filter_eq_self.mpr (fun c hc => decide_eq_true (hmem c hc).1)
  have hkeep : l.filter keepChar = l :=
    List.filter_eq_self.mpr (fun c hc => (hmem c hc).2.1)
  have hcoll : collapseAux false l = l :=
    (collapseAux_fixed l (fun c hc => (hmem c hc).2.2) hch).1
  have hstrip : pyStrip l = l := pyStrip_fixed l hh hl
  have hkc : keptChars (String.mk l) = l := by
    unfold keptChars
    rw [hdec, flatten_map_singleton, hascii, hkeep]
  have hdata := nts_data (String.mk l)
  rw [hkc, hcoll, hstrip] at hdata
  exact String.ext hdata

/-- Claim C5: the text-normalization function is idempotent; applying it
twice to any string yields the same result as applying it once. -/
theorem normalize_text_idempotent (s : String) :
    normalize_text (normalize_text (PyVal.str s)) = normalize_text (PyVal.str s) := by
  show PyVal.str (normalize_text_str (normalize_text_str s)) =
    PyVal.str (normalize_text_str s)
  have h := nts_fixed (normalize_text_str s).data (nts_good s)
  have h2 : String.mk (normalize_text_str s).data = normalize_text_str s := rfl
  rw [h2] at h
  rw [h]

/-- Claim C4 counterexample: the underscore survives normalization
unchanged, yet it is neither alphanumeric, nor whitespace, nor one of the
comma, period, semicolon, hyphen punctuation set the claim allows. -/
theorem normalize_text_underscore_kept :
    normalize_text_str "_" = "_" ∧
      ¬(('_').isAlphanum = true ∨ pyIsSpace '_' = true ∨ '_' = ',' ∨ '_' = '.' ∨
        '_' = ';' ∨ '_' = '-') := by
  constructor
  · rfl
  · decide

/-- A kept character is alphanumeric, an underscore, whitespace, or one of
the four kept punctuation characters. -/
theorem keepChar_cases (c : Char) (h2 : keepChar c = true) :
    c.isAlphanum = true ∨ c = '_' ∨ pyIsSpace c = true ∨ c = ',' ∨ c = '.' ∨
      c = ';' ∨ c = '-' := by
  simp only [keepChar, isWordChar, Bool.or_eq_true, beq_iff_eq] at h2
  tauto

/-- Claim C4 (amended): for every input string the normalization output is
ASCII-only; every character is alphanumeric, an underscore, whitespace, or
one of comma, period, semicolon, hyphen; the only whitespace character
present is the single space; there are no two adjacent spaces, no leading
or trailing whitespace, and no embedded newline or carriage return.  (The
amendment adds the underscore, kept by the code's `\w` class, to the
claim's allowed set.) -/
theorem normalize_text_output_clean (s : String) :
    (∀ c ∈ (normalize_text_str s).data,
      c.toNat < 128 ∧
        (c.isAlphanum = true ∨ c = '_' ∨ pyIsSpace c = true ∨ c = ',' ∨ c = '.' ∨
          c = ';' ∨ c = '-') ∧
        (pyIsSpace c = true → c = ' ')) ∧
    List.Chain' (fun a b => ¬(a = ' ' ∧ b = ' ')) (normalize_text_str s).data ∧
    (∀ x, (normalize_text_str s).data.head? = some x → pyIsSpace x = false) ∧
    (∀ x, (normalize_text_str s).data.getLast? = some x → pyIsSpace x = false) ∧
    '\n' ∉ (normalize_text_str s).data ∧ '\r' ∉ (normalize_text_str s).data := by
  rcases nts_good s with ⟨hmem, hch, hh, hl⟩
  refine ⟨?_, ?_, hh, hl, ?_, ?_⟩
  · intro c hc
    rcases hmem c hc with ⟨h1, h2, h3⟩
    exact ⟨h1, keepChar_cases c h2, h3⟩
  · refine hch.imp (fun a b hab hcon => hab ⟨?_, ?_⟩)
    · rw [hcon.1]; decide
    · rw [hcon.2]; decide
  · intro hmem'
    have := (hmem '\n' hmem').2.2 (by decide)
    exact absurd this (by decide)
  · intro hmem'
    have := (hmem '\r' hmem').2.2 (by decide)
    exact absurd this (by decide)

/-- Witness for the amended C4 statement: applying it to a concrete string
and its concrete head character. -/
theorem normalize_text_output_clean_witness : pyIsSpace 'x' = false :=
  (normalize_text_output_clean "x").2.2.1 'x' (by decide)

/-- Claim C10: the `isinstance(text, str)` guard returns every non-string
value unchanged; the function never alters or rejects such inputs. -/
theorem normalize_text_non_string_id (v : PyVal) (h : isStrVal v = false) :
    normalize_text v = v := by
  cases v with
  | str s => simp [isStrVal] at h
  | num n => rfl
  | nan => rfl

/-- Witness for C10: a numeric cell and the missing-value marker pass
through unchanged. -/
theorem normalize_text_non_string_id_witness :
    isStrVal (PyVal.num 3) = false ∧ isStrVal PyVal.nan = false ∧
      normalize_text (PyVal.num 3) = PyVal.num 3 ∧
      normalize_text PyVal.nan = PyVal.nan :=
  ⟨rfl, rfl, normalize_text_non_string_id (PyVal.num 3) rfl,
    normalize_text_non_string_id PyVal.nan rfl⟩

/-- Skipping the small chunks up front leaves the processing loop's result
unchanged. -/
theorem processChunks_filter (ts : List RawChunk) :
    processChunks ts = processChunks (ts.filter (fun t => decide (3 < t.ncols))) := by
  induction ts with
  | nil => rfl
  | cons t ts ih =>
    by_cases ht : 3 < t.ncols
    · rw [List.filter_cons_of_pos (by simpa using ht)]
      cases hpc : processChunk t with
      | none => simp [processChunks, hpc, ih]
      | some r =>
        cases r with
        | error e => simp [processChunks, hpc]
        | ok f => simp [processChunks, hpc, ih]
    · have hnone : processChunk t = none := by
        unfold processChunk
        rw [if_neg ht]
      rw [List.filter_cons_of_neg (by simpa using ht)]
      simp [processChunks, hnone, ih]

/-- Claim C7: every chunk with three or fewer columns is discarded by the
reconciler and contributes nothing: removing all such chunks up front
leaves the extraction result unchanged, and the processing loop maps each
of them to `none`. -/
theorem small_chunks_discarded (ts : List RawChunk) :
    extract_tables ts = extract_tables (ts.filter (fun t => decide (3 < t.ncols))) ∧
      ∀ t : RawChunk, t.ncols ≤ 3 → processChunk t = none := by
  constructor
  · unfold extract_tables
    rw [processChunks_filter]
  · intro t ht
    unfold processChunk
    rw [if_neg (by omega)]

/-- Witness for C7: a three-column chunk is skipped, and dropping it from a
chunk list does not change the extraction outcome. -/
theorem small_chunks_discarded_witness :
    processChunk ⟨3, [[PyVal.str "a", PyVal.str "b", PyVal.str "c"]]⟩ = none :=
  (small_chunks_discarded []).2
    ⟨3, [[PyVal.str "a", PyVal.str "b", PyVal.str "c"]]⟩ (by decide)

/-- The locator returns the first qualifying target of the list,
absolutized. -/
theorem find_first (pre : List String) (h : String) (post : List String) :
    (∀ g ∈ pre, qualifiesLink g = false) → qualifiesLink h = true →
      find_anexo_i_url (pre ++ h :: post) = .ok (absolutize h) := by
  induction pre with
  | nil =>
    intro _ hq
    simp [find_anexo_i_url, hq]
  | cons g gs ih =>
    intro hpre hq
    have hg : qualifiesLink g = false := hpre g (List.mem_cons_self _ _)
    have hstep : find_anexo_i_url ((g :: gs) ++ h :: post)
        = find_anexo_i_url (gs ++ h :: post) := by
      simp [find_anexo_i_url, hg]
    rw [hstep]
    exact ih (fun x hx => hpre x (List.mem_cons_of_mem _ hx)) hq

/-- The locator raises when no target qualifies. -/
theorem find_none (links : List String) :
    (∀ g ∈ links, qualifiesLink g = false) →
      find_anexo_i_url links = .error .urlNotFound := by
  induction links with
  | nil => intro _; rfl
  | cons g gs ih =>
    intro hall
    have hg : qualifiesLink g = false := hall g (List.mem_cons_self _ _)
    have hstep : find_anexo_i_url (g :: gs) = find_anexo_i_url gs := by
      simp [find_anexo_i_url, hg]
    rw [hstep]
    exact ih (fun x hx => hall x (List.mem_cons_of_mem _ hx))

/-- Claim C8: the locator returns the first link target containing
`'Anexo_I'` whose lowercased form ends in an allowed document extension,
prefixing the fixed host when the target is relative; it fails with the
not-found error when no target qualifies; on the specification's example
it returns the absolutized URL. -/
theorem find_anexo_i_url_spec (links pre post : List String) (h : String) :
    (links = pre ++ h :: post → (∀ g ∈ pre, qualifiesLink g = false) →
      qualifiesLink h = true → find_anexo_i_url links = .ok (absolutize h)) ∧
    ((∀ g ∈ links, qualifiesLink g = false) →
      find_anexo_i_url links = .error .urlNotFound) ∧
    find_anexo_i_url ["/index.html", "/arquivo/Anexo_I_Rol.pdf"] =
      .ok "https://www.gov.br/arquivo/Anexo_I_Rol.pdf" := by
  refine ⟨?_, find_none links, ?_⟩
  · intro heq hpre hq
    rw [heq]
    exact find_first pre h post hpre hq
  · rfl

/-- Witness for C8: a concrete page with one non-qualifying and one
qualifying relative target, and a concrete page with no qualifying
target. -/
theorem find_anexo_i_url_spec_witness :
    find_anexo_i_url ["nope.txt", "/arquivo/Anexo_I_Rol.pdf"] =
        .ok "https://www.gov.br/arquivo/Anexo_I_Rol.pdf" ∧
      find_anexo_i_url ["nope.txt"] = .error .urlNotFound := by
  constructor
  · have h := (find_anexo_i_url_spec ["nope.txt", "/arquivo/Anexo_I_Rol.pdf"]
      ["nope.txt"] [] "/arquivo/Anexo_I_Rol.pdf").1 rfl (by decide) (by decide)
    rw [h]
    rfl
  · exact (find_anexo_i_url_spec ["nope.txt"] [] [] "").2.1 (by decide)

/-- Claim C3: when the processed chunks concatenate to fewer than the
expected thirteen columns, extraction stops with the schema error that
carries the actual and expected counts, and the composed pipeline
propagates that error, so `clean_dataframe` is never applied. -/
theorem schema_check_failure (ts : List RawChunk) (frames : List Frame)
    (h1 : processChunks ts = .ok frames) (h2 : frames ≠ [])
    (h3 : (concatFrames frames).cols.length < expected_columns.length) :
    extract_tables ts =
        .error (.schemaError (concatFrames frames).cols.length
          expected_columns.length) ∧
      pipeline ts =
        .error (.schemaError (concatFrames frames).cols.length
          expected_columns.length) := by
  have hne : frames.isEmpty = false := by
    cases frames with
    | nil => exact absurd rfl h2
    | cons a l => rfl
  have hx : extract_tables ts =
      .error (.schemaError (concatFrames frames).cols.length
        expected_columns.length) := by
    unfold extract_tables
    rw [h1]
    simp [hne, h3]
  refine ⟨hx, ?_⟩
  unfold pipeline
  rw [hx]
  rfl

/-- Witness for C3: a single valid 10-column chunk makes the reconciled
table 10 columns wide; extraction fails with the schema error reporting
10 versus 13, and the pipeline never reaches normalization. -/
theorem schema_check_failure_witness :
    extract_tables [exChunk10] = .error (.schemaError 10 13) ∧
      pipeline [exChunk10] = .error (.schemaError 10 13) :=
  schema_check_failure [exChunk10] [exFrame10] rfl (by simp) (by decide)

/-- Every row of a concatenated frame has exactly as many cells as the
frame has column labels (the reindexing of `pd.concat` pads with `NaN`). -/
theorem foldr_rows_length (u : List PyVal) (fs : List Frame) (r : List PyVal)
    (hr : r ∈ fs.foldr
      (fun f acc => f.rows.map (fun row => u.map (lookupCell f.cols row)) ++ acc)
      []) :
    r.length = u.length := by
  induction fs with
  | nil => simp at hr
  | cons f fs ih =>
    rw [List.foldr_cons] at hr
    rcases List.mem_append.mp hr with h1 | h2
    · rcases List.mem_map.mp h1 with ⟨row, _, hrow⟩
      rw [← hrow, List.length_map]
    · exact ih h2

/-- The concatenated frame is rectangular. -/
theorem concatFrames_rect (fs : List Frame) :
    ∀ r ∈ (concatFrames fs).rows, r.length = (concatFrames fs).cols.length := by
  intro r hr
  exact foldr_rows_length (unionCols fs) fs r hr

/-- Inversion of a successful extraction: the chunks processed without
error, and the result is their concatenation, already checked to be at
least thirteen columns wide. -/
theorem extract_ok_inv (ts : List RawChunk) (full : Frame)
    (h : extract_tables ts = .ok full) :
    ∃ frames, processChunks ts = .ok frames ∧ full = concatFrames frames ∧
      expected_columns.length ≤ (concatFrames frames).cols.length := by
  unfold extract_tables at h
  cases hp : processChunks ts with
  | error e =>
    rw [hp] at h
    exact absurd h (by simp)
  | ok frames =>
    rw [hp] at h
    have h2 : (if frames.isEmpty then
          (Except.error PipeError.noValidTables : Except PipeError Frame)
        else if (concatFrames frames).cols.length < expected_columns.length then
          Except.error (PipeError.schemaError (concatFrames frames).cols.length
            expected_columns.length)
        else Except.ok (concatFrames frames)) = Except.ok full := h
    by_cases he : frames.isEmpty
    · rw [if_pos he] at h2
      exact absurd h2 (by simp)
    · rw [if_neg he] at h2
      by_cases hlt : (concatFrames frames).cols.length < expected_columns.length
      · rw [if_pos hlt] at h2
        exact absurd h2 (by simp)
      · rw [if_neg hlt] at h2
        exact ⟨frames, rfl, (Except.ok.inj h2).symm, not_lt.mp hlt⟩

/-- `clean_dataframe` on a table of at most thirteen columns: no column is
truncated; the columns are positionally renamed to as much of the fixed
schema as there are columns, and each kept row is cleaned cell by cell in
place. -/
theorem clean_dataframe_narrow (df : Frame)
    (h : df.cols.length ≤ expected_columns.length) :
    clean_dataframe df =
      ⟨(expected_columns.take df.cols.length).map PyVal.str,
        cleanCells (df.rows.filter notAllNan)⟩ := by
  have h1 : ¬ expected_columns.length < (df.cols.map normalize_text).length := by
    rw [List.length_map]
    omega
  show (⟨(expected_columns.take
      (if expected_columns.length < (df.cols.map normalize_text).length then
        (df.cols.map normalize_text).take expected_columns.length
       else df.cols.map normalize_text).length).map PyVal.str,
    cleanCells
      (if expected_columns.length < (df.cols.map normalize_text).length then
        (df.rows.filter notAllNan).map (List.take expected_columns.length)
       else df.rows.filter notAllNan)⟩ : Frame) = _
  rw [if_neg h1, if_neg h1, List.length_map]

/-- `clean_dataframe` on a table of more than thirteen columns: exactly the
first thirteen columns survive, renamed to the full fixed schema. -/
theorem clean_dataframe_wide (df : Frame)
    (h : expected_columns.length < df.cols.length) :
    clean_dataframe df =
      ⟨expected_columns.map PyVal.str,
        cleanCells ((df.rows.filter notAllNan).map
          (List.take expected_columns.length))⟩ := by
  have h1 : expected_columns.length < (df.cols.map normalize_text).length := by
    rw [List.length_map]
    omega
  show (⟨(expected_columns.take
      (if expected_columns.length < (df.cols.map normalize_text).length then
        (df.cols.map normalize_text).take expected_columns.length
       else df.cols.map normalize_text).length).map PyVal.str,
    cleanCells
      (if expected_columns.length < (df.cols.map normalize_text).length then
        (df.rows.filter notAllNan).map (List.take expected_columns.length)
       else df.rows.filter notAllNan)⟩ : Frame) = _
  rw [if_pos h1, if_pos h1, List.length_take, List.length_map,
    min_eq_left (le_of_lt h), List.take_length]

/-- Claim C2 (amended): whenever extraction succeeds, the normalized table
carries exactly the fixed thirteen-name schema held by the code:
`PROCEDIMENTO, RN_alteracao, VIGENCIA, OD, AMB, HCO, HSO, REF, PAC, DUT,
SUBGRUPO, GRUPO, CAPITULO` — the fourth and fifth names are the codes `OD`
and `AMB`, not the expanded labels the claim lists — and every row has
exactly thirteen cells. -/
theorem pipeline_schema_invariant (ts : List RawChunk) (full : Frame)
    (h : extract_tables ts = .ok full) :
    (clean_dataframe full).cols = expected_columns.map PyVal.str ∧
      ∀ r ∈ (clean_dataframe full).rows, r.length = expected_columns.length := by
  rcases extract_ok_inv ts full h with ⟨frames, hp, hfull, hge⟩
  have hrect : ∀ r ∈ full.rows, r.length = full.cols.length := by
    rw [hfull]
    exact concatFrames_rect frames
  have hgef : expected_columns.length ≤ full.cols.length := by
    rw [hfull]
    exact hge
  by_cases hw : expected_columns.length < full.cols.length
  · rw [clean_dataframe_wide full hw]
    refine ⟨rfl, ?_⟩
    intro r hr
    simp only [cleanCells] at hr
    rcases List.mem_map.mp hr with ⟨r0, h0, hr0⟩
    have hlen : r.length = r0.length := by
      rw [← hr0, List.length_map, List.length_mapIdx]
    rcases List.mem_map.mp h0 with ⟨r1, h1, hr1⟩
    have hl1 : r1.length = full.cols.length := hrect r1 (List.mem_filter.mp h1).1
    rw [hlen, ← hr1, List.length_take, hl1, min_eq_left (le_of_lt hw)]
  · have heq : full.cols.length = expected_columns.length :=
      le_antisymm (not_lt.mp hw) hgef
    rw [clean_dataframe_narrow full (le_of_eq heq)]
    constructor
    · rw [heq, List.take_length]
    · intro r hr
      simp only [cleanCells] at hr
      rcases List.mem_map.mp hr with ⟨r0, h0, hr0⟩
      have hlen : r.length = r0.length := by
        rw [← hr0, List.length_map, List.length_mapIdx]
      have hl0 : r0.length = full.cols.length := hrect r0 (List.mem_filter.mp h0).1
      rw [hlen, hl0, heq]

/-- Witness for the amended C2: a concrete successful run through
extraction and normalization. -/
theorem pipeline_schema_invariant_witness :
    (clean_dataframe exFrame13).cols = expected_columns.map PyVal.str ∧
      ∀ r ∈ (clean_dataframe exFrame13).rows, r.length = expected_columns.length :=
  pipeline_schema_invariant [exChunk13] exFrame13 rfl

/-- Claim C2 counterexample: on a concrete successful run the output
column list is the code's `expected_columns`, with the codes `OD` and
`AMB` in the fourth and fifth positions, and differs from the 13-entry
schema with the expanded labels that the claim states. -/
theorem schema_differs_from_spec_schema :
    extract_tables [exChunk13] = .ok exFrame13 ∧
      (clean_dataframe exFrame13).cols = expected_columns.map PyVal.str ∧
      (clean_dataframe exFrame13).cols ≠ spec_expected_schema.map PyVal.str := by
  have hcols : (clean_dataframe exFrame13).cols = expected_columns.map PyVal.str := rfl
  refine ⟨rfl, hcols, ?_⟩
  have hne : expected_columns.map PyVal.str ≠ spec_expected_schema.map PyVal.str := by
    decide
  intro hcontra
  rw [hcols] at hcontra
  exact hne hcontra

/-- Claim C6: with exactly thirteen columns the normalizer truncates and
reorders nothing — every kept row is cleaned cell by cell in place; with
fifteen columns only the first thirteen positions survive and the extras
are silently dropped. -/
theorem clean_truncation_behavior (df : Frame) :
    (df.cols.length = 13 →
      clean_dataframe df =
        ⟨expected_columns.map PyVal.str,
          cleanCells (df.rows.filter notAllNan)⟩) ∧
    (df.cols.length = 15 →
      clean_dataframe df =
        ⟨expected_columns.map PyVal.str,
          cleanCells ((df.rows.filter notAllNan).map (List.take 13))⟩) := by
  constructor
  · intro h13
    rw [clean_dataframe_narrow df (by rw [h13]; decide), h13]
    rfl
  · intro h15
    rw [clean_dataframe_wide df (by rw [h15]; decide)]
    rfl

/-- Witness for C6: a concrete 13-column table is cleaned with no
truncation, and a concrete 15-column table keeps its first thirteen
positions only. -/
theorem clean_truncation_behavior_witness :
    clean_dataframe df13ex =
        ⟨expected_columns.map PyVal.str,
          cleanCells (df13ex.rows.filter notAllNan)⟩ ∧
      clean_dataframe df15ex =
        ⟨expected_columns.map PyVal.str,
          cleanCells ((df15ex.rows.filter notAllNan).map (List.take 13))⟩ :=
  ⟨(clean_truncation_behavior df13ex).1 rfl,
   (clean_truncation_behavior df15ex).2 rfl⟩

/-- Claim C9: rows whose cells are all missing are removed, and the
removal comes first: pre-removing them changes nothing, and the output
has exactly one row per surviving input row (so no other step removes or
adds rows). -/
theorem drop_empty_rows_first (df : Frame) :
    clean_dataframe df = clean_dataframe ⟨df.cols, df.rows.filter notAllNan⟩ ∧
      (clean_dataframe df).rows.length = (df.rows.filter notAllNan).length := by
  have hff : (df.rows.filter notAllNan).filter notAllNan
      = df.rows.filter notAllNan := by
    rw [List.filter_filter]
    simp only [Bool.and_self]
  constructor
  · by_cases hw : expected_columns.length < df.cols.length
    · rw [clean_dataframe_wide df hw,
        clean_dataframe_wide ⟨df.cols, df.rows.filter notAllNan⟩ hw]
      rw [show (⟨df.cols, df.rows.filter notAllNan⟩ : Frame).rows
        = df.rows.filter notAllNan from rfl, hff]
    · rw [clean_dataframe_narrow df (not_lt.mp hw),
        clean_dataframe_narrow ⟨df.cols, df.rows.filter notAllNan⟩ (not_lt.mp hw)]
      rw [show (⟨df.cols, df.rows.filter notAllNan⟩ : Frame).rows
        = df.rows.filter notAllNan from rfl, hff]
  · by_cases hw : expected_columns.length < df.cols.length
    · rw [clean_dataframe_wide df hw]
      simp [cleanCells]
    · rw [clean_dataframe_narrow df (not_lt.mp hw)]
      simp [cleanCells]

/-- Claim C1 (code evaluated at the failing input): the abbreviation map
assigns the label `"Seg. Odontológica"` to the code `OD`, and the fourth
schema column is the `OD` column; yet the normalizer leaves a cell `"OD"`
in that column as `"OD"` and turns a cell `"od "` into `"od"` — the map is
configured in the constructor but never consulted, so no cell is ever
replaced by the expanded label. -/
theorem abbreviation_never_expanded :
    expected_columns.getD 3 "" = "OD" ∧
      abbreviations.lookup "OD" = some "Seg. Odontológica" ∧
      ((clean_dataframe dfOD).rows.getD 0 []).getD 3 PyVal.nan = PyVal.str "OD" ∧
      ((clean_dataframe dfOD).rows.getD 1 []).getD 3 PyVal.nan = PyVal.str "od" ∧
      PyVal.str "OD" ≠ PyVal.str "Seg. Odontológica" ∧
      PyVal.str "od" ≠ PyVal.str "Seg. Odontológica" := by
  refine ⟨rfl, rfl, rfl, rfl, by decide, by decide⟩
